import Mathlib

/-!
Verification development for the `dropbox-sync` synchronization engine.

The JavaScript sources are shallowly embedded:

* JavaScript strings are modeled as lists of characters (`JsStr`); the
  string methods used by the source translate as
  `slice(0, n)` = `List.take n`, `length` = `List.length`,
  `===` = list equality, `s[0]` = `List.head?`, `'/' + s` = `List.cons '/'`,
  `toLowerCase()` = `List.map Char.toLower`, `concat` = `List.append`.
* Dropbox delta entries (`Dropbox.Http.PulledChange`) become `Entry`,
  pulled pages (`Dropbox.Http.PulledChanges`) become `Page`.
* Asynchronous callback code becomes explicit state-passing step functions,
  and (for the scheduling claims) a small-step event-loop simulator with an
  explicit pool of pending continuations.
* Fallible remote calls are scripted as `Except` values consumed in order.

Unless stated otherwise, definitions follow `src/unnamed/part_000` (the
variant with the per-path notification queue and the uid:root instance
cache); definitions from `src/unnamed/part_001` are suffixed `001`.
-/

/-- JavaScript strings, modeled as lists of characters. -/
abbrev JsStr := List Char

/-- One Dropbox delta entry (`Dropbox.Http.PulledChange`): a remote path plus
either a removal flag or a file/folder descriptor (`change.stat.isFile`,
`change.stat.isFolder` are plain boolean properties on the Dropbox stat). -/
structure Entry where
  path : JsStr
  wasRemoved : Bool
  statIsFile : Bool
  statIsFolder : Bool
deriving DecidableEq

/-- One pulled page / accumulated batch (`Dropbox.Http.PulledChanges`):
an ordered entry list plus the `shouldPullAgain` and `blankSlate` flags. -/
structure Page where
  changes : List Entry
  shouldPullAgain : Bool
  blankSlate : Bool
deriving DecidableEq

/-- The helper `normalizePath` of part_000 (lines 489-499): prepend a slash
when the (truthy = nonempty) path does not start with one, then lower-case. -/
def normalizePath (path : JsStr) : JsStr :=
  let path1 := if path ≠ [] ∧ path.head? ≠ some '/' then '/' :: path else path
  path1.map Char.toLower

/-- The per-path delta filter used by `pullChanges` (part_000 lines 241-243,
part_001 lines 208-210): keep the changes whose remote path has the watched
path as a `slice(0, path.length) === path` prefix. -/
def filterChangesForPath (watch : JsStr) (cs : List Entry) : List Entry :=
  cs.filter (fun c => c.path.take watch.length == watch)

/-- CLAIM C6. An entry is routed to a watched path exactly when the watched
path is a string prefix of the entry's remote path; consequently an entry
below two nested watched paths (here `/a` and `/a/b` with entry
`/a/b/file.txt`) is routed to both. -/
theorem c6_route_iff :
    (∀ (watch : JsStr) (cs : List Entry) (c : Entry),
       c ∈ filterChangesForPath watch cs ↔ (c ∈ cs ∧ watch <+: c.path)) ∧
    (∀ (c : Entry), c.path = (String.toList "/a/b/file.txt") →
       (c ∈ filterChangesForPath (String.toList "/a") [c] ∧
        c ∈ filterChangesForPath (String.toList "/a/b") [c])) := by
  constructor
  · intro watch cs c
    rw [filterChangesForPath, List.mem_filter]
    constructor
    · rintro ⟨hm, hp⟩
      refine ⟨hm, ?_⟩
      rw [List.prefix_iff_eq_take]
      exact (beq_iff_eq.mp hp).symm
    · rintro ⟨hm, hp⟩
      refine ⟨hm, ?_⟩
      rw [List.prefix_iff_eq_take] at hp
      exact beq_iff_eq.mpr hp.symm
  · intro c hc
    constructor <;>
      · rw [filterChangesForPath, List.mem_filter]
        refine ⟨List.mem_singleton_self c, ?_⟩
        rw [hc]
        decide

/-- Witness for C6 at the concrete nested-path entry. -/
theorem c6_witness :
    (Entry.mk (String.toList "/a/b/file.txt") false true false).path =
      (String.toList "/a/b/file.txt") ∧
    (Entry.mk (String.toList "/a/b/file.txt") false true false ∈
       filterChangesForPath (String.toList "/a")
         [Entry.mk (String.toList "/a/b/file.txt") false true false] ∧
     Entry.mk (String.toList "/a/b/file.txt") false true false ∈
       filterChangesForPath (String.toList "/a/b")
         [Entry.mk (String.toList "/a/b/file.txt") false true false]) :=
  ⟨rfl, c6_route_iff.2 (Entry.mk (String.toList "/a/b/file.txt") false true false) rfl⟩

/-! ## Local folder replacement (part_000 `_replaceLocalWithFolder`, lines 446-477)

The local filesystem object at the entry's mapped local path is one of:
missing (`fs.stat` fails with ENOENT), a file, or a directory. -/

/-- What currently exists at the mapped local path. -/
inductive LocalNode
  | missing
  | fileNode
  | dirNode
deriving DecidableEq

/-- The value of the JavaScript test `if (stat.isDirectory)` at part_000 line
464. In Node.js `fs.Stats.isDirectory` is a *method*; the source references it
without invoking it, so the test sees the function object itself, which is
truthy for every successfully stat-ed node (file or directory alike). -/
def statIsDirectoryTruthy : Bool := true

/-- `DropboxSync.prototype._replaceLocalWithFolder` (part_000 lines 446-477):
on ENOENT create the directory; otherwise, if `stat.isDirectory` is truthy,
call back with no action; otherwise remove the node and create the
directory. Returns the resulting local node. -/
def replaceLocalWithFolder (node : LocalNode) : LocalNode :=
  match node with
  | .missing => .dirNode
  | .fileNode => if statIsDirectoryTruthy then .fileNode else .dirNode
  | .dirNode => if statIsDirectoryTruthy then .dirNode else .dirNode

/-- CLAIM C8 (code bug). Evaluating the folder-replacement routine at the
failing input: when a *file* occupies the local path of a folder delta entry,
the routine leaves the file in place (because `stat.isDirectory` is a method
referenced without being called, hence always truthy), instead of deleting it
and creating a directory as the claim — and the routine's own comments —
require. The missing-node and existing-directory branches behave as claimed. -/
theorem c8_folder_over_file_noop :
    replaceLocalWithFolder .fileNode = .fileNode ∧
    replaceLocalWithFolder .fileNode ≠ .dirNode ∧
    replaceLocalWithFolder .missing = .dirNode ∧
    replaceLocalWithFolder .dirNode = .dirNode := by
  decide

/-! ## Instance cache (part_000 lines 23-45, 118-143)

`var cache = {}` is a process-wide mapping keyed by `uid + ':' + root`.
The constructor returns the cached instance when the key is present
(returning an object from a JavaScript constructor overrides `this`);
otherwise it registers the new instance. `stopSync` deletes the key.
Instances are identified by the numeric token handed out at construction. -/

/-- The cache key `dropboxConfig.uid + ':' + root` (part_000 line 24). -/
def cacheKey (uid root : JsStr) : JsStr := uid ++ ':' :: root

/-- Lookup in the process-wide instance cache. -/
def cacheLookup (c : List (JsStr × Nat)) (k : JsStr) : Option Nat :=
  (c.find? (fun kv => kv.1 == k)).map (fun kv => kv.2)

/-- The `DropboxSync` constructor's cache interaction (part_000 lines 23-28):
return the cached instance for `uid + ':' + root` when present, otherwise
register a fresh instance under that key. -/
def constructDbs (c : List (JsStr × Nat)) (fresh : Nat) (uid root : JsStr) :
    List (JsStr × Nat) × Nat :=
  match cacheLookup c (cacheKey uid root) with
  | some id => (c, id)
  | none => ((cacheKey uid root, fresh) :: c, fresh)

/-- One cache-touching operation: a construction (`new DropboxSync`, possibly
via `DropboxSync.sync`) or the cache eviction performed by `stopSync`
(part_000 line 133, `delete cache[uid + ':' + root]`). -/
inductive CacheOp
  | make (uid root : JsStr)
  | evict (uid root : JsStr)
deriving DecidableEq

/-- Run a sequence of cache operations from the initial empty cache
(`var cache = {}`), handing out a fresh instance token per construction. -/
def runCacheOps (ops : List CacheOp) : List (JsStr × Nat) × Nat :=
  ops.foldl
    (fun acc op =>
      match op with
      | .make uid root => ((constructDbs acc.1 acc.2 uid root).1, acc.2 + 1)
      | .evict uid root => (acc.1.filter (fun kv => ¬ kv.1 == cacheKey uid root), acc.2))
    ([], 0)

/-- Number of cache entries stored under a given key. -/
def countKey (k : JsStr) (c : List (JsStr × Nat)) : Nat :=
  c.countP (fun kv => kv.1 == k)

theorem cacheLookup_none_countKey {c : List (JsStr × Nat)} {k : JsStr}
    (h : cacheLookup c k = none) : countKey k c = 0 := by
  rw [cacheLookup, Option.map_eq_none', List.find?_eq_none] at h
  rw [countKey, List.countP_eq_zero]
  exact h

theorem countKey_constructDbs_le (c : List (JsStr × Nat)) (fresh : Nat)
    (uid root : JsStr) (k : JsStr) (h : countKey k c ≤ 1) :
    countKey k (constructDbs c fresh uid root).1 ≤ 1 := by
  rw [constructDbs]
  cases hl : cacheLookup c (cacheKey uid root) with
  | some id => exact h
  | none =>
    simp only [countKey, List.countP_cons]
    by_cases hk : cacheKey uid root == k
    · have h0 : countKey k c = 0 := by
        rw [← beq_iff_eq.mp hk] at *
        exact cacheLookup_none_countKey hl
      rw [countKey] at h0
      simp [hk, h0]
    · simp only [hk, if_neg]
      simpa [countKey] using h

theorem countKey_runCacheOps_le (ops : List CacheOp) (k : JsStr) :
    ∀ (c : List (JsStr × Nat)) (fresh : Nat), countKey k c ≤ 1 →
      countKey k (ops.foldl
        (fun acc op =>
          match op with
          | .make uid root => ((constructDbs acc.1 acc.2 uid root).1, acc.2 + 1)
          | .evict uid root => (acc.1.filter (fun kv => ¬ kv.1 == cacheKey uid root), acc.2))
        (c, fresh)).1 ≤ 1 := by
  induction ops with
  | nil => intro c fresh h; exact h
  | cons op rest ih =>
    intro c fresh h
    cases op with
    | make uid root =>
      exact ih _ _ (countKey_constructDbs_le c fresh uid root k h)
    | evict uid root =>
      refine ih _ _ (le_trans ?_ h)
      exact List.Sublist.countP_le _ (List.filter_sublist c)

/-- CLAIM C7. Constructing twice with the same account identity (same uid and
same local root) returns the very same instance token and leaves the cache
unchanged, and over any sequence of constructions and stopSync evictions
starting from the initial empty cache, at most one live instance is ever
registered per (uid, root) identity. -/
theorem c7_instance_cache :
    (∀ (c : List (JsStr × Nat)) (n m : Nat) (uid root : JsStr),
       constructDbs (constructDbs c n uid root).1 m uid root =
         ((constructDbs c n uid root).1, (constructDbs c n uid root).2)) ∧
    (∀ (ops : List CacheOp) (uid root : JsStr),
       countKey (cacheKey uid root) (runCacheOps ops).1 ≤ 1) := by
  constructor
  · intro c n m uid root
    cases hl : cacheLookup c (cacheKey uid root) with
    | some id =>
      have h1 : constructDbs c n uid root = (c, id) := by rw [constructDbs, hl]
      rw [h1, constructDbs, hl]
    | none =>
      have h1 : constructDbs c n uid root = ((cacheKey uid root, n) :: c, n) := by
        rw [constructDbs, hl]
      have h2 : cacheLookup ((cacheKey uid root, n) :: c) (cacheKey uid root) = some n := by
        simp [cacheLookup, List.find?]
      rw [h1, constructDbs, h2]
  · intro ops uid root
    exact countKey_runCacheOps_le ops (cacheKey uid root) [] 0 (by simp [countKey])

/-! ## Engine state model (part_000)

The mutable per-instance state relevant to `pullChanges`, `watchForChanges`,
`sync` and `stopSync`: the registered watched paths (`this.paths`, ordered by
registration as JavaScript object keys are), the delta cursor (`this.cursor`,
assigned the whole pulled page object), the `pullingChanges` busy flag and the
`watchingForChanges` long-poll handle (modeled by its truthiness). -/

structure EngineSt where
  paths : List JsStr
  cursor : Option Page
  pulling : Bool
  watching : Bool
deriving DecidableEq

/-- The fresh-instance state established by the constructor
(part_000 lines 37-42). -/
def initEngine : EngineSt :=
  { paths := [], cursor := none, pulling := false, watching := false }

/-- The synchronous head of `pullChanges` (part_000 lines 199-208): a call
arriving while a pull is in flight returns at once without fetching;
otherwise the busy flag is set and `client.pullChanges` is issued. The
boolean reports whether a fetch was issued. -/
def pullChangesEnter (s : EngineSt) : EngineSt × Bool :=
  if s.pulling then (s, false)
  else ({ s with pulling := true }, true)

/-- The head of the `client.pullChanges` completion callback (part_000 lines
208-213): on a fetch error, `errAll` (lines 289-294) delivers the error to
every registered path's handler and nothing else runs — the cursor keeps its
pre-fetch value and the busy flag is left set. On success the cursor becomes
the pulled page object and the busy flag clears. The second component lists
the (path, error) deliveries performed. -/
def pullFetchCallback (s : EngineSt) (r : Except Nat Page) :
    EngineSt × List (JsStr × Nat) :=
  match r with
  | .error e => (s, s.paths.map (fun p => (p, e)))
  | .ok page => ({ s with cursor := some page, pulling := false }, [])

/-- What `watchForChanges` did: started a pull (reporting whether the pull
actually issued a fetch), returned because a poll is already outstanding, or
armed a new long-poll. -/
inductive WatchAction
  | startedPull (fetched : Bool)
  | noopWatching
  | armedPoll
deriving DecidableEq

/-- `DropboxSync.prototype.watchForChanges` (part_000 lines 149-160): with no
cursor, go straight to `pullChanges`; with an outstanding poll, do nothing;
otherwise arm `client.pollForChanges`. -/
def watchForChangesStep (s : EngineSt) : EngineSt × WatchAction :=
  if s.cursor.isNone then
    ((pullChangesEnter s).1, .startedPull (pullChangesEnter s).2)
  else if s.watching then (s, .noopWatching)
  else ({ s with watching := true }, .armedPoll)

/-- The state effect of `DropboxSync.prototype.sync` (part_000 lines 73-110):
register the normalized path in `this.paths` (an object: re-registering an
existing key does not add a second one) and call `watchForChanges`. -/
def syncRegister (s : EngineSt) (path : JsStr) : EngineSt :=
  let p := normalizePath path
  let s1 := { s with paths := if p ∈ s.paths then s.paths else s.paths ++ [p] }
  (watchForChangesStep s1).1

/-- Observable effects of a `stopSync` call, in execution order. -/
inductive StopEffect
  | abortPoll
  | evictCache
  | removeRoot
  | mkdirRoot
  | callback
deriving DecidableEq

/-- `DropboxSync.prototype.stopSync` (part_000 lines 118-143): drop the
normalized path; when no paths remain AND the long-poll handle is truthy,
abort the poll, evict the instance from the cache, and reset the local root
(`resetDir`, lines 269-282: `fs.remove` then `fs.mkdirs`) before the
callback; in every other case just schedule the callback. -/
def stopSyncStep (s : EngineSt) (path : JsStr) : EngineSt × List StopEffect :=
  let p := normalizePath path
  let remaining := s.paths.erase p
  if remaining.isEmpty && s.watching then
    ({ s with paths := remaining, watching := false },
     [.abortPoll, .evictCache, .removeRoot, .mkdirRoot, .callback])
  else
    ({ s with paths := remaining }, [.callback])

/-- CLAIM C5. When a `pullChanges` fetch errors, the stored cursor retains its
pre-fetch value and the error is delivered to every currently registered
path's handler, in table order. -/
theorem c5_error_keeps_cursor (s : EngineSt) (e : Nat) (h : s.pulling = false) :
    (pullChangesEnter s).2 = true ∧
    (pullFetchCallback (pullChangesEnter s).1 (.error e)).1.cursor = s.cursor ∧
    (pullFetchCallback (pullChangesEnter s).1 (.error e)).2 =
      s.paths.map (fun p => (p, e)) := by
  rw [pullChangesEnter]
  simp [h, pullFetchCallback]

/-- Witness for C5 at a concrete state. -/
theorem c5_witness :
    initEngine.pulling = false ∧
    (pullChangesEnter initEngine).2 = true ∧
    (pullFetchCallback (pullChangesEnter initEngine).1 (.error 7)).1.cursor =
      initEngine.cursor ∧
    (pullFetchCallback (pullChangesEnter initEngine).1 (.error 7)).2 =
      initEngine.paths.map (fun p => (p, 7)) := by
  refine ⟨rfl, ?_⟩
  exact c5_error_keeps_cursor initEngine 7 rfl

/-- CLAIM C10. A fetch error leaves the `pullingChanges` busy flag set (it is
cleared only on the success path), so on the resulting state every later
`pullChanges` call — iterated any number of times, or reached through
`watchForChanges` with a null cursor as a later `sync` registration would do —
returns immediately without issuing a fetch and without changing state: the
instance permanently stops pulling. -/
theorem c10_error_wedges_pulling (s : EngineSt) (e : Nat) (h : s.pulling = false) :
    ((pullFetchCallback (pullChangesEnter s).1 (.error e)).1.pulling = true) ∧
    (pullChangesEnter (pullFetchCallback (pullChangesEnter s).1 (.error e)).1 =
       ((pullFetchCallback (pullChangesEnter s).1 (.error e)).1, false)) ∧
    (∀ n : Nat,
       (fun t => (pullChangesEnter t).1)^[n]
         (pullFetchCallback (pullChangesEnter s).1 (.error e)).1 =
       (pullFetchCallback (pullChangesEnter s).1 (.error e)).1) ∧
    ((pullFetchCallback (pullChangesEnter s).1 (.error e)).1.cursor = none →
       watchForChangesStep (pullFetchCallback (pullChangesEnter s).1 (.error e)).1 =
         ((pullFetchCallback (pullChangesEnter s).1 (.error e)).1,
          .startedPull false)) := by
  have hs1 : (pullChangesEnter s).1 = { s with pulling := true } := by
    rw [pullChangesEnter]; simp [h]
  have hs2 : (pullFetchCallback (pullChangesEnter s).1 (.error e)).1 =
      { s with pulling := true } := by
    rw [hs1]; rfl
  rw [hs2]
  refine ⟨rfl, ?_, ?_, ?_⟩
  · rw [pullChangesEnter]; simp
  · intro n
    refine Function.iterate_fixed ?_ n
    rw [pullChangesEnter]; simp
  · intro hc
    simp only [EngineSt.mk.injEq] at hc ⊢
    rw [watchForChangesStep]
    simp only [hc, Option.isNone_none, if_true]
    rw [pullChangesEnter]
    simp

/-- Witness for C10 at a concrete state. -/
theorem c10_witness :
    initEngine.pulling = false ∧
    ((pullFetchCallback (pullChangesEnter initEngine).1 (.error 3)).1.pulling = true) ∧
    (pullChangesEnter (pullFetchCallback (pullChangesEnter initEngine).1 (.error 3)).1 =
       ((pullFetchCallback (pullChangesEnter initEngine).1 (.error 3)).1, false)) := by
  refine ⟨rfl, ?_, ?_⟩
  · exact (c10_error_wedges_pulling initEngine 3 rfl).1
  · exact (c10_error_wedges_pulling initEngine 3 rfl).2.1

/-- CLAIM C9 counterexample. A freshly constructed instance with one `sync`
registration whose initial pull is still in flight has no outstanding
long-poll (`watchingForChanges` is null), so `stopSync` on that last path
takes the else-branch: it only schedules the callback — the instance is not
evicted from the cache and the local mirror root is not wiped, contradicting
the claim that removing the last watched path always evicts and wipes. -/
theorem c9_counterexample :
    ((syncRegister initEngine (String.toList "/a")).paths.erase
        (normalizePath (String.toList "/a")) = []) ∧
    (stopSyncStep (syncRegister initEngine (String.toList "/a"))
        (String.toList "/a")).2 = [StopEffect.callback] ∧
    StopEffect.evictCache ∉
      (stopSyncStep (syncRegister initEngine (String.toList "/a"))
        (String.toList "/a")).2 ∧
    StopEffect.removeRoot ∉
      (stopSyncStep (syncRegister initEngine (String.toList "/a"))
        (String.toList "/a")).2 := by
  decide

/-- CLAIM C9 as amended. When `stopSync` removes the last remaining watched
path *and a long-poll is outstanding at that moment*, the poll is aborted,
the instance is evicted from the process-wide cache, and the local mirror
root is wiped (removed then recreated) before the callback runs — in exactly
that order; when no long-poll is outstanding, none of this happens and only
the callback is scheduled. -/
theorem c9_amended (s : EngineSt) (path : JsStr)
    (hlast : (s.paths.erase (normalizePath path)).isEmpty = true) :
    (s.watching = true →
       stopSyncStep s path =
         ({ s with paths := s.paths.erase (normalizePath path), watching := false },
          [.abortPoll, .evictCache, .removeRoot, .mkdirRoot, .callback])) ∧
    (s.watching = false →
       stopSyncStep s path =
         ({ s with paths := s.paths.erase (normalizePath path) },
          [.callback])) := by
  constructor
  · intro hw
    rw [stopSyncStep]
    simp [hlast, hw]
  · intro hw
    rw [stopSyncStep]
    simp [hlast, hw]

/-- Witness for C9 (amended) at a concrete state with an outstanding poll. -/
theorem c9_witness :
    (({ paths := [String.toList "/a"], cursor := none, pulling := false,
        watching := true } : EngineSt).paths.erase
          (normalizePath (String.toList "/a"))).isEmpty = true ∧
    stopSyncStep
        { paths := [String.toList "/a"], cursor := none, pulling := false,
          watching := true } (String.toList "/a") =
      ({ paths := [], cursor := none, pulling := false, watching := false },
       [.abortPoll, .evictCache, .removeRoot, .mkdirRoot, .callback]) := by
  refine ⟨by decide, ?_⟩
  have h := (c9_amended
    { paths := [String.toList "/a"], cursor := none, pulling := false,
      watching := true } (String.toList "/a") (by decide)).1 rfl
  rw [h]
  decide

/-! ## Delta puller accumulation (part_000 `pullChanges`, lines 199-262)

The remote feed is scripted as a list of responses consumed in order. The
recursion mirrors the source: on each successful page the cursor becomes
that page object; when a previous accumulator exists, the new page's entries
are concatenated after it (`prevChanges.changes.concat(pulledChanges.changes)`);
while `shouldPullAgain` holds, the engine re-fetches; only when it is false
is the accumulated batch handed to `commitChanges`. A fetch error stops
everything (`errAll`) with the cursor unchanged. -/

/-- The accumulator update of part_000 lines 217-227: with no previous pull
the current page is the accumulator, otherwise the page's entries are
appended to the previous accumulator (which keeps the first page's flags). -/
def mergeAcc (prev : Option Page) (page : Page) : Page :=
  match prev with
  | none => page
  | some pr => { pr with changes := pr.changes ++ page.changes }

/-- Outcome of a pull cycle: the accumulated batch handed to commit together
with the final cursor, a fetch failure (with the cursor as of the failure),
or a feed that never answered (script exhausted). -/
inductive PullOutcome
  | committed (batch : Page) (cursor : Option Page)
  | failed (cursor : Option Page)
  | noResponse (cursor : Option Page)
deriving DecidableEq

/-- The `pullChanges` fetch/accumulate/recurse loop (part_000 lines 199-229)
over a scripted list of feed responses. -/
def pullLoop (cursor : Option Page) (prev : Option Page) :
    List (Except Nat Page) → PullOutcome
  | [] => .noResponse cursor
  | .error _ :: _ => .failed cursor
  | .ok page :: rest =>
    let acc := mergeAcc prev page
    if page.shouldPullAgain then pullLoop (some page) (some acc) rest
    else .committed acc (some page)

theorem pullLoop_cons_true (c prev : Option Page) (page : Page)
    (L : List (Except Nat Page)) (h : page.shouldPullAgain = true) :
    pullLoop c prev (Except.ok page :: L) =
      pullLoop (some page) (some (mergeAcc prev page)) L := by
  simp [pullLoop, h]

theorem pullLoop_cons_false (c prev : Option Page) (page : Page)
    (L : List (Except Nat Page)) (h : page.shouldPullAgain = false) :
    pullLoop c prev (Except.ok page :: L) =
      .committed (mergeAcc prev page) (some page) := by
  simp [pullLoop, h]

theorem pullLoop_accum_some (last : Page) (rest : List (Except Nat Page)) :
    ∀ (ps : List Page) (c : Option Page) (pr : Page),
      (∀ p ∈ ps, p.shouldPullAgain = true) → last.shouldPullAgain = false →
      pullLoop c (some pr) (((ps ++ [last]).map Except.ok) ++ rest) =
        .committed
          { pr with changes := pr.changes ++ ((ps ++ [last]).map Page.changes).flatten }
          (some last) := by
  intro ps
  induction ps with
  | nil =>
    intro c pr _ hlast
    rw [List.nil_append, List.map_cons, List.map_nil, List.cons_append, List.nil_append,
      pullLoop_cons_false c (some pr) last rest hlast]
    simp [mergeAcc]
  | cons p ps ih =>
    intro c pr hps hlast
    have hp : p.shouldPullAgain = true := hps p (List.mem_cons_self p ps)
    rw [List.cons_append, List.map_cons, List.cons_append,
      pullLoop_cons_true c (some pr) p _ hp]
    rw [show mergeAcc (some pr) p = { pr with changes := pr.changes ++ p.changes } from rfl]
    rw [ih (some p) { pr with changes := pr.changes ++ p.changes }
      (fun q hq => hps q (List.mem_cons_of_mem p hq)) hlast]
    simp [List.append_assoc]

theorem pullLoop_again_no_commit :
    ∀ (pages : List Page) (c prev : Option Page) (b : Page) (cur : Option Page),
      (∀ p ∈ pages, p.shouldPullAgain = true) →
      pullLoop c prev (pages.map Except.ok) ≠ .committed b cur := by
  intro pages
  induction pages with
  | nil => intro c prev b cur _ h; exact PullOutcome.noConfusion h
  | cons p ps ih =>
    intro c prev b cur hall h
    have hp : p.shouldPullAgain = true := hall p (List.mem_cons_self p ps)
    rw [List.map_cons, pullLoop_cons_true c prev p _ hp] at h
    exact ih (some p) (some (mergeAcc prev p)) b cur
      (fun q hq => hall q (List.mem_cons_of_mem p hq)) h

/-- CLAIM C4. First conjunct: over a feed script that answers a pull cycle
with pages all reporting `shouldPullAgain = true` followed by a final page
reporting false, the engine commits exactly one batch whose entry list is the
in-order concatenation of every page's entries (earlier entries are never
replaced, later pages are appended after them), whose other fields are those
of the first page, with the cursor left at the last consumed page, and the
remainder of the script is never consumed. Second conjunct: while every
fetched page keeps reporting `shouldPullAgain = true`, nothing is ever handed
to commit — a partial batch is never dispatched. -/
theorem c4_pull_accumulation :
    (∀ (ps : List Page) (last : Page) (rest : List (Except Nat Page)) (c : Option Page),
       (∀ p ∈ ps, p.shouldPullAgain = true) → last.shouldPullAgain = false →
       pullLoop c none (((ps ++ [last]).map Except.ok) ++ rest) =
         .committed { (ps ++ [last]).headD last with
                      changes := ((ps ++ [last]).map Page.changes).flatten }
           (some last)) ∧
    (∀ (pages : List Page) (c : Option Page) (b : Page) (cur : Option Page),
       (∀ p ∈ pages, p.shouldPullAgain = true) →
       pullLoop c none (pages.map Except.ok) ≠ .committed b cur) := by
  constructor
  · intro ps last rest c hps hlast
    cases ps with
    | nil =>
      rw [List.nil_append, List.map_cons, List.map_nil, List.cons_append, List.nil_append,
        pullLoop_cons_false c none last rest hlast]
      simp [mergeAcc]
    | cons p ps =>
      have hp : p.shouldPullAgain = true := hps p (List.mem_cons_self p ps)
      have hps2 : ∀ q ∈ ps, q.shouldPullAgain = true := fun q hq =>
        hps q (List.mem_cons_of_mem p hq)
      rw [List.cons_append, List.map_cons, List.cons_append,
        pullLoop_cons_true c none p _ hp]
      rw [show mergeAcc none p = p from rfl]
      rw [pullLoop_accum_some last rest ps (some p) p hps2 hlast]
      simp
  · intro pages c b cur hall
    exact pullLoop_again_no_commit pages c none b cur hall

/-- Witness for C4: a two-page pull (first page pulls again, second does not)
commits the concatenated batch and never touches the rest of the script, and
an always-pull-again script commits nothing. -/
theorem c4_witness :
    ((∀ p ∈ [Page.mk [Entry.mk (String.toList "/a/x") false true false] true false],
        p.shouldPullAgain = true) ∧
     (Page.mk [Entry.mk (String.toList "/b/y") false true false] false true).shouldPullAgain
       = false ∧
     pullLoop none none
       ((([Page.mk [Entry.mk (String.toList "/a/x") false true false] true false] ++
           [Page.mk [Entry.mk (String.toList "/b/y") false true false] false true]).map
          Except.ok) ++ [Except.error 5]) =
       .committed
         { changes := [Entry.mk (String.toList "/a/x") false true false,
                       Entry.mk (String.toList "/b/y") false true false],
           shouldPullAgain := true, blankSlate := false }
         (some (Page.mk [Entry.mk (String.toList "/b/y") false true false] false true))) ∧
    (∀ b cur, pullLoop none none
        ([Page.mk [] true false].map Except.ok) ≠ .committed b cur) := by
  constructor
  · refine ⟨by decide, rfl, ?_⟩
    have h := c4_pull_accumulation.1
      [Page.mk [Entry.mk (String.toList "/a/x") false true false] true false]
      (Page.mk [Entry.mk (String.toList "/b/y") false true false] false true)
      [Except.error 5] none (by decide) rfl
    rw [h]
    decide
  · intro b cur
    exact c4_pull_accumulation.2 [Page.mk [] true false] none b cur (by decide)

/-! ## Concrete paths and entries used by several witnesses -/

def pathA : JsStr := String.toList "/a"

def pathB : JsStr := String.toList "/b"

def entAX : Entry := Entry.mk (String.toList "/a/x") false true false

def entBY : Entry := Entry.mk (String.toList "/b/y") false true false

def entBZ : Entry := Entry.mk (String.toList "/b/z") false true false

/-! ## Entry application within one commit (part_000 `commitChanges`, lines 314-343)

`commitChanges` runs an async.series: first the blank-slate reset, then
`async.each(pulledChanges.changes, self.commitChange.bind(self), next)`
(line 332). The async library's `each` starts its iterator on every list
element in a synchronous loop, in list order, and calls the completion
callback only after every element's asynchronous iterator has called back;
because the loop is synchronous and each `commitChange` is asynchronous,
every entry's filesystem mutation *begins* before any of them *ends*, and the
mutations then complete after externally determined filesystem latencies. We
model the latency of entry `i` as a script value `ds[i]` (in ticks) and
record the begin and end of every entry's mutation plus the batch-completion
callback. -/

/-- Observable events of the entry-application phase for one batch. -/
inductive EachEv
  | start (i : Nat)
  | finish (i : Nat)
  | batchDone
deriving DecidableEq

/-- Insert an (entry index, latency) pair by completion tick; ties keep the
original (entry) order, as completions issued earlier fire first. -/
def finOrderInsert (x : Nat × Nat) : List (Nat × Nat) → List (Nat × Nat)
  | [] => [x]
  | y :: ys => if x.2 ≤ y.2 then x :: y :: ys else y :: finOrderInsert x ys

/-- Stable sort of (entry index, latency) pairs by completion tick. -/
def finOrderSort : List (Nat × Nat) → List (Nat × Nat)
  | [] => []
  | x :: xs => finOrderInsert x (finOrderSort xs)

theorem finOrderInsert_perm (x : Nat × Nat) (l : List (Nat × Nat)) :
    List.Perm (finOrderInsert x l) (x :: l) := by
  induction l with
  | nil => exact List.Perm.refl [x]
  | cons y ys ih =>
    rw [finOrderInsert]
    by_cases h : x.2 ≤ y.2
    · rw [if_pos h]
    · rw [if_neg h]
      exact (ih.cons y).trans (List.Perm.swap x y ys)

theorem finOrderSort_perm (l : List (Nat × Nat)) : List.Perm (finOrderSort l) l := by
  induction l with
  | nil => exact List.Perm.refl []
  | cons x xs ih => exact (finOrderInsert_perm x (finOrderSort xs)).trans (ih.cons x)

/-- Execution trace of `async.each` over `n = ds.length` tasks with the given
latencies: all task bodies are started synchronously in list order, the
asynchronous completions fire in completion-tick order, and the phase
callback runs last. -/
def eachRun (ds : List Nat) : List EachEv :=
  ((List.range ds.length).map EachEv.start) ++
    ((finOrderSort ds.enum).map (fun x => EachEv.finish x.1)) ++
    [EachEv.batchDone]

/-- The entry-application phase of `commitChanges` for a batch's change list,
with the filesystem latency of entry `i` scripted as `ds[i]` (default 0). -/
def commitEntriesTrace (cs : List Entry) (ds : List Nat) : List EachEv :=
  eachRun ((List.range cs.length).map (fun i => ds.getD i 0))

/-- Position of the first occurrence of an event in a trace. -/
def idxOfEv (tr : List EachEv) (e : EachEv) : Nat := tr.findIdx (fun x => x == e)

/-- The ordering property claimed for a committed batch: the filesystem
mutation for entry `i` completes before the mutation for entry `i+1`
begins. -/
def entriesAppliedInOrder (cs : List Entry) (ds : List Nat) : Bool :=
  (List.range cs.length).all (fun i =>
    if i + 1 < cs.length then
      decide (idxOfEv (commitEntriesTrace cs ds) (EachEv.finish i) <
              idxOfEv (commitEntriesTrace cs ds) (EachEv.start (i + 1)))
    else true)

/-- CLAIM C3 counterexample. With two entries whose filesystem operations
take 1 tick and 0 ticks respectively, `async.each` (which runs the entry
mutations concurrently, not sequentially) yields a trace in which entry 1's
mutation begins before entry 0's mutation completes — and even completes
before it — so the claimed entry-by-entry serialization fails. -/
theorem c3_counterexample :
    entriesAppliedInOrder [entAX, entBY] [1, 0] = false ∧
    commitEntriesTrace [entAX, entBY] [1, 0] =
      [EachEv.start 0, EachEv.start 1, EachEv.finish 1, EachEv.finish 0,
       EachEv.batchDone] := by
  decide

/-- CLAIM C3 as amended. For every committed batch the entry mutations are
*started* in the order the entries were received (the trace begins with
`start 0, start 1, ...` in order), every entry's mutation completes exactly
once (the completion events are a permutation of one `finish` per entry, in
a latency-dependent order), and the batch's completion callback runs only
after all of them; but the mutations run concurrently — the mutation for
entry `i+1` may begin (and even complete) before the mutation for entry `i`
completes. -/
theorem c3_amended (cs : List Entry) (ds : List Nat) :
    ∃ fins, commitEntriesTrace cs ds =
        ((List.range cs.length).map EachEv.start) ++ fins ++ [EachEv.batchDone] ∧
      List.Perm fins ((List.range cs.length).map EachEv.finish) := by
  refine ⟨(finOrderSort ((List.range cs.length).map (fun i => ds.getD i 0)).enum).map
    (fun x => EachEv.finish x.1), ?_, ?_⟩
  · rw [commitEntriesTrace, eachRun, List.length_map, List.length_range]
  · have hp := (finOrderSort_perm (((List.range cs.length).map
      (fun i => ds.getD i 0)).enum)).map (fun x : Nat × Nat => EachEv.finish x.1)
    refine hp.trans ?_
    have h2 : (((List.range cs.length).map (fun i => ds.getD i 0)).enum).map
        (fun x : Nat × Nat => EachEv.finish x.1) =
        (List.range cs.length).map EachEv.finish := by
      rw [show (fun x : Nat × Nat => EachEv.finish x.1) =
            (EachEv.finish ∘ Prod.fst) from rfl, ← List.map_map, List.enum_map_fst,
        List.length_map, List.length_range]
    exact h2 ▸ List.Perm.refl _

/-! ## Per-path dispatch of a complete batch (part_001 `pullChanges`, lines 203-229)

Once the accumulated batch is complete, part_001 iterates the watched paths;
for each path it filters the batch's changes by the prefix rule and — only
when the filtered list is nonempty — clones the batch (the clone keeps the
batch's `blankSlate` flag), restricts the clone's changes to the filtered
list, and submits it to that path's `commitChanges(path, clonedChanges, cb)`
(part_001 lines 287-316: an async.series that runs `resetDir(path)` to
completion first when `blankSlate` is set, then applies the entries). -/

/-- The path-scoped batches part_001 submits to commit pipelines. -/
def dispatch001 (watched : List JsStr) (batch : Page) : List (JsStr × Page) :=
  watched.filterMap (fun p =>
    let filtered := filterChangesForPath p batch.changes
    if filtered.isEmpty then none
    else some (p, { batch with changes := filtered }))

/-- One filesystem-level operation of a per-path commit pipeline. -/
inductive CommitOp
  | resetDir (p : JsStr)
  | applyEntry (path : JsStr)
deriving DecidableEq

/-- The ordered operation list of part_001's `commitChanges(path, batch, cb)`:
the async.series runs the `blankSlate` directory reset to completion before
the entry phase begins. -/
def commitOps001 (p : JsStr) (b : Page) : List CommitOp :=
  (if b.blankSlate then [CommitOp.resetDir p] else []) ++
    b.changes.map (fun c => CommitOp.applyEntry c.path)

/-- The watched paths whose commit pipeline performs a blank-slate directory
reset for the given complete batch. -/
def resetPaths001 (watched : List JsStr) (batch : Page) : List JsStr :=
  (dispatch001 watched batch).filterMap (fun pb =>
    if (commitOps001 pb.1 pb.2).contains (CommitOp.resetDir pb.1) then some pb.1
    else none)

/-- CLAIM C2 counterexample. A complete batch with `blankSlate = true` whose
entries all lie outside a watched path `/a` (and likewise a blank-slate batch
with an empty entry list) triggers *no* commit pipeline for `/a` — the
dispatch guard `if (filtered.length)` skips empty partitions — so `/a`'s
local mirror directory is never wiped or rebuilt, contradicting the claim
that a blank-slate reset reaches every active watched path. -/
theorem c2_counterexample :
    (Page.mk [Entry.mk (String.toList "/b/x") false true false] false true).blankSlate
      = true ∧
    pathA ∈ [pathA] ∧
    resetPaths001 [pathA]
      (Page.mk [Entry.mk (String.toList "/b/x") false true false] false true) = [] ∧
    resetPaths001 [pathA] (Page.mk [] false true) = [] := by
  decide

/-- CLAIM C2 as amended. For every complete batch with `blankSlate = true`
and every watched path whose partition of matching entries is *nonempty*, a
path-scoped batch carrying the cloned blank-slate flag is submitted to that
path's commit pipeline, and that pipeline recursively resets the path's
local mirror directory before any entry of the partition is applied; a
watched path whose partition is empty (in particular every path, when the
entry list is empty) receives no commit and no reset. -/
theorem c2_amended (watched : List JsStr) (batch : Page) (p : JsStr)
    (hw : p ∈ watched) (hb : batch.blankSlate = true)
    (hne : filterChangesForPath p batch.changes ≠ []) :
    (p, { batch with changes := filterChangesForPath p batch.changes }) ∈
      dispatch001 watched batch ∧
    commitOps001 p { batch with changes := filterChangesForPath p batch.changes } =
      CommitOp.resetDir p ::
        (filterChangesForPath p batch.changes).map
          (fun c => CommitOp.applyEntry c.path) := by
  constructor
  · rw [dispatch001, List.mem_filterMap]
    refine ⟨p, hw, ?_⟩
    have : (filterChangesForPath p batch.changes).isEmpty = false := by
      cases hc : filterChangesForPath p batch.changes with
      | nil => exact absurd hc hne
      | cons a l => rfl
    simp only [this, Bool.false_eq_true, if_false]
  · rw [commitOps001, hb]
    rfl

/-- Witness for C2 (amended) at a concrete batch and watched path. -/
theorem c2_witness :
    (pathA ∈ [pathA] ∧
     (Page.mk [entAX] false true).blankSlate = true ∧
     filterChangesForPath pathA (Page.mk [entAX] false true).changes ≠ []) ∧
    ((pathA, { Page.mk [entAX] false true with
               changes := filterChangesForPath pathA (Page.mk [entAX] false true).changes }) ∈
       dispatch001 [pathA] (Page.mk [entAX] false true) ∧
     commitOps001 pathA
         { Page.mk [entAX] false true with
           changes := filterChangesForPath pathA (Page.mk [entAX] false true).changes } =
       CommitOp.resetDir pathA ::
         (filterChangesForPath pathA (Page.mk [entAX] false true).changes).map
           (fun c => CommitOp.applyEntry c.path)) := by
  refine ⟨⟨by decide, rfl, by decide⟩, ?_⟩
  exact c2_amended [pathA] (Page.mk [entAX] false true) pathA (by decide) rfl (by decide)

/-! ## Event-loop simulator for part_000's scheduling (claim C1)

part_000's control flow is single-threaded with asynchronous callbacks. We
model it as a small-step system: the state holds the engine fields plus a
pool of pending continuations (`SimEv`); a scheduler repeatedly picks one
pending continuation and runs its handler, which is a direct transcription
of the corresponding callback body in the source. External nondeterminism is
scripted: the feed's pull responses, the poll responses, and the per-path
consumer callback latencies (how many scheduler picks elapse inside each
`onChange` before the consumer calls the queue task's callback `cb`).

Observable trace events record filesystem mutations and the begin/end of
every consumer change-notification callback. `commitChanges` is abstracted
to one scheduling window: its filesystem work is recorded when the commit is
invoked, and its completion callback (which dispatches to the per-path
queues) fires as a later scheduled continuation; per-entry interleaving
inside one commit is covered separately by `commitEntriesTrace`. -/

/-- Observable trace events of a simulator run. -/
inductive TraceEv
  | mutate (p : JsStr)
  | resetRoot
  | cbStart (p : JsStr)
  | cbEnd (p : JsStr)
  | errorAt (p : JsStr)
deriving DecidableEq

/-- Pending asynchronous continuations. `pullReturn prev` is the
`client.pullChanges` completion with the closed-over accumulator;
`commitFinish` is the `commitChanges` completion callback; `queueWake` is the
async.queue scheduling tick for a path's queue; `consumerCb p d` is the
consumer's pending `cb` invocation, `d` picks away; `pollReturn` is the
`client.pollForChanges` completion; `watchRetry` is the `delay`-ed re-poll;
`localState p` is the `getLocalState` readdir completion issued by `sync`. -/
inductive SimEv
  | pullReturn (prev : Option Page)
  | commitFinish (batch : Page)
  | queueWake (p : JsStr)
  | consumerCb (p : JsStr) (d : Nat)
  | pollReturn
  | watchRetry
  | localState (p : JsStr)
deriving DecidableEq

/-- Pointwise update of a path-indexed table. -/
def updFn {α : Type} (f : JsStr → α) (p : JsStr) (v : α) : JsStr → α :=
  fun q => if q = p then v else f q

/-- Simulator state: engine fields of part_000 (watched path table in
registration order, cursor, busy flag, poll handle truthiness), per-path
async.queue state (pending task payloads and whether a worker — a consumer
`onChange` — is in flight), the external scripts, the pending-continuation
pool, and the observable trace. -/
structure SimSt where
  watched : List JsStr
  cursor : Option Page
  pulling : Bool
  watching : Bool
  tasks : JsStr → List (List JsStr)
  running : JsStr → Bool
  delays : JsStr → List Nat
  feed : List (Except Nat Page)
  polls : List (Except Nat Bool)
  pending : List SimEv
  trace : List TraceEv

/-- `errAll` (part_000 lines 289-294): deliver the error to every registered
path's handler (which forwards it to the consumer's `onError`). -/
def errAllSim (s : SimSt) : SimSt :=
  { s with trace := s.trace ++ s.watched.map TraceEv.errorAt }

/-- The synchronous head of `pullChanges` (lines 199-208): drop the call if a
pull is in flight, otherwise set the busy flag and issue the fetch, whose
completion joins the pending pool carrying the closed-over accumulator. -/
def pullChangesSim (prev : Option Page) (s : SimSt) : SimSt :=
  if s.pulling then s
  else { s with pulling := true, pending := s.pending ++ [SimEv.pullReturn prev] }

/-- `watchForChanges` (lines 149-160): no cursor → pull immediately; an
outstanding poll → no-op; otherwise arm the long-poll. -/
def watchForChangesSim (s : SimSt) : SimSt :=
  if s.cursor.isNone then pullChangesSim none s
  else if s.watching then s
  else { s with watching := true, pending := s.pending ++ [SimEv.pollReturn] }

/-- `queue.push` (line 99): append the task payload to the path's async.queue
and schedule queue processing. -/
def queuePushSim (p : JsStr) (payload : List JsStr) (s : SimSt) : SimSt :=
  { s with tasks := updFn s.tasks p (s.tasks p ++ [payload]),
           pending := s.pending ++ [SimEv.queueWake p] }

/-- The per-path handler registered by `sync` (lines 94-101): on success,
push a task onto the path's queue when the changed-path list is nonempty. -/
def pathHandlerSim (p : JsStr) (changed : List JsStr) (s : SimSt) : SimSt :=
  if changed.isEmpty then s else queuePushSim p changed s

/-- Invoking `commitChanges` (lines 314-343): the filesystem work (the
blank-slate reset followed by the entry mutations) happens inside the commit
window, recorded here at its start; the completion callback is scheduled. -/
def commitChangesSim (batch : Page) (s : SimSt) : SimSt :=
  { s with
      trace := s.trace ++ ((if batch.blankSlate then [TraceEv.resetRoot] else []) ++
        batch.changes.map (fun c => TraceEv.mutate c.path)),
      pending := s.pending ++ [SimEv.commitFinish batch] }

/-- The `commitChanges` completion callback inside `pullChanges` (lines
229-258): for every registered path, filter the batch by the prefix rule and
invoke the path's handler; since `triggered` is set for every iterated path,
the trailing `watchForChanges` re-arm is reached only when the path table is
empty, in which case the callback returns before the loop. -/
def commitCallbackSim (batch : Page) (s : SimSt) : SimSt :=
  if s.watched.isEmpty then s
  else s.watched.foldl
    (fun acc p =>
      pathHandlerSim p ((filterChangesForPath p batch.changes).map (fun c => c.path)) acc)
    s

/-- The `client.pullChanges` completion (lines 208-229): consume the next
scripted feed response. On error, `errAll` — note the busy flag stays set.
On success, the cursor becomes the page object, the busy flag clears, the
page's entries are appended to the accumulator, and the engine either
re-fetches (`shouldPullAgain`) or commits the accumulated batch. -/
def firePullReturn (prev : Option Page) (s : SimSt) : SimSt :=
  match s.feed with
  | [] => s
  | r :: rest =>
    match r with
    | .error _ => errAllSim { s with feed := rest }
    | .ok page =>
      let s2 := { s with feed := rest, cursor := some page, pulling := false }
      let acc := mergeAcc prev page
      if page.shouldPullAgain then pullChangesSim (some acc) s2
      else commitChangesSim acc s2

/-- The async.queue worker activation: if no worker is in flight and a task
is queued, pop it, start the consumer's `onChange` (recording `cbStart`), and
schedule the consumer's callback after its scripted latency. -/
def fireQueueWake (p : JsStr) (s : SimSt) : SimSt :=
  if s.running p then s
  else
    match s.tasks p with
    | [] => s
    | _ :: moreTasks =>
      { s with tasks := updFn s.tasks p moreTasks,
               delays := updFn s.delays p (s.delays p).tail,
               running := updFn s.running p true,
               trace := s.trace ++ [TraceEv.cbStart p],
               pending := s.pending ++ [SimEv.consumerCb p ((s.delays p).headD 0)] }

/-- The consumer's `cb` for a queue task: after the scripted latency elapses,
the callback returns (recording `cbEnd`); the queue then starts the next
task, or fires `drain` — which calls `watchForChanges` (lines 87-89). -/
def fireConsumerCb (p : JsStr) (d : Nat) (s : SimSt) : SimSt :=
  match d with
  | Nat.succ d2 => { s with pending := s.pending ++ [SimEv.consumerCb p d2] }
  | 0 =>
    let s1 := { s with trace := s.trace ++ [TraceEv.cbEnd p],
                       running := updFn s.running p false }
    if (s1.tasks p).isEmpty then watchForChangesSim s1
    else { s1 with pending := s1.pending ++ [SimEv.queueWake p] }

/-- The `client.pollForChanges` completion (lines 160-189): consume the next
scripted poll response; on error, `errAll`; if the poll was cancelled in the
meantime (`watchingForChanges` falsy), discard the result; otherwise clear
the handle and either pull now or schedule a delayed re-poll. -/
def firePollReturn (s : SimSt) : SimSt :=
  match s.polls with
  | [] => s
  | r :: rest =>
    match r with
    | .error _ => errAllSim { s with polls := rest }
    | .ok hasChanges =>
      if s.watching then
        let s2 := { s with polls := rest, watching := false }
        if hasChanges then pullChangesSim none s2
        else { s2 with pending := s2.pending ++ [SimEv.watchRetry] }
      else { s with polls := rest }

/-- Dispatch a fired continuation to its handler. The `localState` readdir
completion assumes a freshly reset mirror (an empty directory listing), so
the handler receives an empty changed-path list. -/
def fireEvent (e : SimEv) (s : SimSt) : SimSt :=
  match e with
  | .pullReturn prev => firePullReturn prev s
  | .commitFinish batch => commitCallbackSim batch s
  | .queueWake p => fireQueueWake p s
  | .consumerCb p d => fireConsumerCb p d s
  | .pollReturn => firePollReturn s
  | .watchRetry => watchForChangesSim s
  | .localState p => pathHandlerSim p [] s

/-- Remove and return the i-th element of a list. -/
def pick {α : Type} : List α → Nat → Option (α × List α)
  | [], _ => none
  | a :: l, 0 => some (a, l)
  | a :: l, Nat.succ n => (pick l n).map (fun br => (br.1, a :: br.2))

/-- One scheduler step: fire the i-th pending continuation, if any. -/
def simStep (s : SimSt) (i : Nat) : SimSt :=
  match pick s.pending i with
  | none => s
  | some er => fireEvent er.1 { s with pending := er.2 }

/-- Run the scheduler through a schedule of picks. -/
def simRun (s : SimSt) (sched : List Nat) : SimSt := sched.foldl simStep s

/-- `DropboxSync.prototype.sync` (lines 73-110): register the normalized
path (object keys: no duplicates), issue the `getLocalState` readdir whose
completion invokes the new handler, and call `watchForChanges`. -/
def syncSim (s : SimSt) (path : JsStr) : SimSt :=
  let p := normalizePath path
  let s1 := { s with
    watched := if p ∈ s.watched then s.watched else s.watched ++ [p],
    pending := s.pending ++ [SimEv.localState p] }
  watchForChangesSim s1

/-- A freshly constructed instance (lines 37-42) with its external scripts. -/
def simInit (feed : List (Except Nat Page)) (polls : List (Except Nat Bool))
    (delays : JsStr → List Nat) : SimSt :=
  { watched := [], cursor := none, pulling := false, watching := false,
    tasks := fun _ => [], running := fun _ => false, delays := delays,
    feed := feed, polls := polls, pending := [], trace := [] }

/-- A fresh instance after a sequence of `sync` registrations. -/
def mkSim (feed : List (Except Nat Page)) (polls : List (Except Nat Bool))
    (delays : JsStr → List Nat) (regs : List JsStr) : SimSt :=
  regs.foldl syncSim (simInit feed polls delays)

/-- Scan of a trace for the claimed non-overlap property: no filesystem
mutation at or below a watched path may occur while that path's
change-notification callback is outstanding. -/
def overlapScan : List JsStr → List TraceEv → Bool
  | _, [] => true
  | o, TraceEv.cbStart p :: r => overlapScan (p :: o) r
  | o, TraceEv.cbEnd p :: r => overlapScan (o.erase p) r
  | o, TraceEv.mutate q :: r =>
      if o.any (fun p => p.isPrefixOf q) then false else overlapScan o r
  | o, TraceEv.resetRoot :: r => overlapScan o r
  | o, TraceEv.errorAt _ :: r => overlapScan o r

/-- A trace is overlap-free when no mutation under a path happens inside
that path's open callback window. -/
def overlapFreeB (t : List TraceEv) : Bool := overlapScan [] t

/-- Concrete scripts for the C1 counterexample: watched paths `/a` and `/b`;
the first pulled batch touches both, the second touches only `/b`; one poll
reporting changes separates them; `/a`'s consumer calls back immediately
while `/b`'s consumer takes three scheduler picks. -/
def c1Delays : JsStr → List Nat := updFn (updFn (fun _ => []) pathA [0]) pathB [3]

def c1Page1 : Page := Page.mk [entAX, entBY] false false

def c1Page2 : Page := Page.mk [entBZ] false false

def c1Start : SimSt :=
  syncSim (syncSim (simInit [Except.ok c1Page1, Except.ok c1Page2] [Except.ok true]
    c1Delays) pathA) pathB

/-- CLAIM C1 counterexample. Running the engine under a first-in-first-out
schedule: the first batch commits and notifies both paths; `/a`'s callback
returns at once, so `/a`'s queue drains and re-arms the watch loop; the poll
reports changes and the second batch's commit mutates `/b/z` while `/b`'s
change callback for the *first* batch is still outstanding. The consumer's
change callback for `/b` therefore overlaps the engine's filesystem mutation
for the next batch on that path, refuting the claimed serialization. -/
theorem c1_counterexample :
    overlapFreeB (simRun c1Start (List.replicate 11 0)).trace = false ∧
    (simRun c1Start (List.replicate 11 0)).trace =
      [TraceEv.mutate entAX.path, TraceEv.mutate entBY.path, TraceEv.cbStart pathA,
       TraceEv.cbStart pathB, TraceEv.cbEnd pathA, TraceEv.mutate entBZ.path] := by
  constructor
  · rfl
  · rfl

/-! ## Callback serialization invariant

The amended C1 property: for every script and every schedule, the consumer
change-notification callbacks for one path never overlap each other — a
second queued batch notification for a path starts only after the prior
callback has returned. We prove it by an invariant tying the open callback
windows of the trace to the per-path worker flags and to the pending
consumer callbacks. -/

/-- Scan of a trace maintaining the set of open callback windows; fails
(`none`) when a path's callback starts while one is already open for that
path, or ends without an open window. -/
def cbScan : List JsStr → List TraceEv → Option (List JsStr)
  | o, [] => some o
  | o, TraceEv.cbStart p :: r => if p ∈ o then none else cbScan (p :: o) r
  | o, TraceEv.cbEnd p :: r => if p ∈ o then cbScan (o.erase p) r else none
  | o, TraceEv.mutate _ :: r => cbScan o r
  | o, TraceEv.resetRoot :: r => cbScan o r
  | o, TraceEv.errorAt _ :: r => cbScan o r

/-- A trace whose per-path callback windows are properly serialized. -/
def cbSerialized (t : List TraceEv) : Bool := (cbScan [] t).isSome

/-- Trace events that neither open nor close a callback window. -/
def nonCbEv (e : TraceEv) : Bool :=
  match e with
  | TraceEv.cbStart _ => false
  | TraceEv.cbEnd _ => false
  | _ => true

theorem cbScan_append (t u : List TraceEv) :
    ∀ o, cbScan o (t ++ u) =
      match cbScan o t with
      | some o2 => cbScan o2 u
      | none => none := by
  induction t with
  | nil => intro o; rfl
  | cons e t ih =>
    intro o
    cases e with
    | cbStart p =>
      rw [List.cons_append]
      by_cases h : p ∈ o
      · simp [cbScan, h]
      · simp [cbScan, h, ih]
    | cbEnd p =>
      rw [List.cons_append]
      by_cases h : p ∈ o
      · simp [cbScan, h, ih]
      · simp [cbScan, h]
    | mutate q => rw [List.cons_append]; simp [cbScan, ih]
    | resetRoot => rw [List.cons_append]; simp [cbScan, ih]
    | errorAt q => rw [List.cons_append]; simp [cbScan, ih]

theorem cbScan_nonCb (u : List TraceEv) :
    ∀ o, (∀ e ∈ u, nonCbEv e = true) → cbScan o u = some o := by
  induction u with
  | nil => intro o _; rfl
  | cons e u ih =>
    intro o hu
    have he := hu e (List.mem_cons_self e u)
    have hu2 : ∀ x ∈ u, nonCbEv x = true := fun x hx => hu x (List.mem_cons_of_mem e hx)
    cases e with
    | cbStart p => exact absurd he (by simp [nonCbEv])
    | cbEnd p => exact absurd he (by simp [nonCbEv])
    | mutate q => rw [cbScan]; exact ih o hu2
    | resetRoot => rw [cbScan]; exact ih o hu2
    | errorAt q => rw [cbScan]; exact ih o hu2

/-- Whether a pending continuation is a consumer callback for a path. -/
def isCbFor (p : JsStr) (e : SimEv) : Bool :=
  match e with
  | SimEv.consumerCb q _ => q == p
  | _ => false

/-- Number of pending consumer callbacks for a path. -/
def cbCount (pend : List SimEv) (p : JsStr) : Nat :=
  pend.countP (isCbFor p)

theorem cbCount_append (l m : List SimEv) (p : JsStr) :
    cbCount (l ++ m) p = cbCount l p + cbCount m p := by
  rw [cbCount, cbCount, cbCount, List.countP_append]

theorem pick_countP {α : Type} (f : α → Bool) :
    ∀ (l : List α) (i : Nat) (a : α) (r : List α), pick l i = some (a, r) →
      l.countP f = r.countP f + (if f a then 1 else 0) := by
  intro l
  induction l with
  | nil => intro i a r h; exact Option.noConfusion h
  | cons x xs ih =>
    intro i a r h
    cases i with
    | zero =>
      simp only [pick, Option.some.injEq, Prod.mk.injEq] at h
      obtain ⟨rfl, rfl⟩ := h
      rw [List.countP_cons]
    | succ n =>
      rw [pick] at h
      cases hp : pick xs n with
      | none => rw [hp] at h; exact Option.noConfusion h
      | some br =>
        rw [hp] at h
        simp only [Option.map_some', Option.some.injEq, Prod.mk.injEq] at h
        obtain ⟨ha, hr⟩ := h
        subst ha
        subst hr
        rw [List.countP_cons, List.countP_cons, ih n br.1 br.2 hp]
        omega

/-- The scheduling invariant: the trace scans without overlap, its open
callback windows are exactly the paths whose queue worker is in flight
(each at most once), and each in-flight worker owns exactly one pending
consumer callback. -/
def SimInv (s : SimSt) : Prop :=
  ∃ o, cbScan [] s.trace = some o ∧ o.Nodup ∧
    (∀ p, p ∈ o ↔ s.running p = true) ∧
    (∀ p, cbCount s.pending p = if s.running p then 1 else 0)

theorem simInv_neutral (s s2 : SimSt) (u : List TraceEv)
    (ht : s2.trace = s.trace ++ u) (hu : ∀ e ∈ u, nonCbEv e = true)
    (hr : ∀ p, s2.running p = s.running p)
    (hc : ∀ p, cbCount s2.pending p = cbCount s.pending p)
    (h : SimInv s) : SimInv s2 := by
  obtain ⟨o, h1, h2, h3, h4⟩ := h
  refine ⟨o, ?_, h2, ?_, ?_⟩
  · rw [ht, cbScan_append s.trace u [], h1]
    exact cbScan_nonCb u o hu
  · intro p
    rw [hr p]
    exact h3 p
  · intro p
    rw [hc p, hr p]
    exact h4 p

theorem errAllSim_inv (s : SimSt) (h : SimInv s) : SimInv (errAllSim s) := by
  refine simInv_neutral s _ (s.watched.map TraceEv.errorAt) rfl ?_ (fun p => rfl)
    (fun p => rfl) h
  intro e he
  obtain ⟨q, _, rfl⟩ := List.mem_map.mp he
  rfl

theorem pullChangesSim_inv (prev : Option Page) (s : SimSt) (h : SimInv s) :
    SimInv (pullChangesSim prev s) := by
  rw [pullChangesSim]
  by_cases hb : s.pulling = true
  · rw [if_pos hb]; exact h
  · rw [if_neg hb]
    refine simInv_neutral s _ [] (List.append_nil s.trace).symm
      (fun e he => absurd he (List.not_mem_nil e)) (fun p => rfl) ?_ h
    intro p
    rw [cbCount_append, show cbCount [SimEv.pullReturn prev] p = 0 from rfl,
      Nat.add_zero]

theorem watchForChangesSim_inv (s : SimSt) (h : SimInv s) :
    SimInv (watchForChangesSim s) := by
  rw [watchForChangesSim]
  by_cases hc : s.cursor.isNone = true
  · rw [if_pos hc]; exact pullChangesSim_inv none s h
  · rw [if_neg hc]
    by_cases hw : s.watching = true
    · rw [if_pos hw]; exact h
    · rw [if_neg hw]
      refine simInv_neutral s _ [] (List.append_nil s.trace).symm
        (fun e he => absurd he (List.not_mem_nil e)) (fun p => rfl) ?_ h
      intro p
      rw [cbCount_append, show cbCount [SimEv.pollReturn] p = 0 from rfl, Nat.add_zero]

theorem queuePushSim_inv (p : JsStr) (payload : List JsStr) (s : SimSt)
    (h : SimInv s) : SimInv (queuePushSim p payload s) := by
  refine simInv_neutral s _ [] (List.append_nil s.trace).symm
    (fun e he => absurd he (List.not_mem_nil e)) (fun q => rfl) ?_ h
  intro q
  rw [queuePushSim]
  rw [cbCount_append, show cbCount [SimEv.queueWake p] q = 0 from rfl, Nat.add_zero]

theorem pathHandlerSim_inv (p : JsStr) (changed : List JsStr) (s : SimSt)
    (h : SimInv s) : SimInv (pathHandlerSim p changed s) := by
  rw [pathHandlerSim]
  by_cases hc : changed.isEmpty = true
  · rw [if_pos hc]; exact h
  · rw [if_neg hc]; exact queuePushSim_inv p changed s h

theorem commitChangesSim_inv (batch : Page) (s : SimSt) (h : SimInv s) :
    SimInv (commitChangesSim batch s) := by
  refine simInv_neutral s _
    ((if batch.blankSlate then [TraceEv.resetRoot] else []) ++
      batch.changes.map (fun c => TraceEv.mutate c.path)) rfl ?_ (fun p => rfl) ?_ h
  · intro e he
    rcases List.mem_append.mp he with h1 | h1
    · by_cases hb : batch.blankSlate = true
      · rw [if_pos hb, List.mem_singleton] at h1
        subst h1; rfl
      · rw [if_neg hb] at h1
        exact absurd h1 (List.not_mem_nil e)
    · obtain ⟨c, _, rfl⟩ := List.mem_map.mp h1
      rfl
  · intro p
    rw [commitChangesSim]
    rw [cbCount_append, show cbCount [SimEv.commitFinish batch] p = 0 from rfl,
      Nat.add_zero]

theorem foldl_pathHandler_inv (g : JsStr → List JsStr) :
    ∀ (l : List JsStr) (s : SimSt), SimInv s →
      SimInv (l.foldl (fun acc p => pathHandlerSim p (g p) acc) s) := by
  intro l
  induction l with
  | nil => intro s h; exact h
  | cons p l ih =>
    intro s h
    rw [List.foldl_cons]
    exact ih _ (pathHandlerSim_inv p (g p) s h)

theorem commitCallbackSim_inv (batch : Page) (s : SimSt) (h : SimInv s) :
    SimInv (commitCallbackSim batch s) := by
  rw [commitCallbackSim]
  by_cases hw : s.watched.isEmpty = true
  · rw [if_pos hw]; exact h
  · rw [if_neg hw]
    exact foldl_pathHandler_inv
      (fun p => (filterChangesForPath p batch.changes).map (fun c => c.path))
      s.watched s h

theorem firePullReturn_inv (prev : Option Page) (s : SimSt) (h : SimInv s) :
    SimInv (firePullReturn prev s) := by
  rw [firePullReturn]
  cases hf : s.feed with
  | nil => exact h
  | cons r rest =>
    have hbase : SimInv { s with feed := rest } :=
      simInv_neutral s _ [] (List.append_nil s.trace).symm
        (fun e he => absurd he (List.not_mem_nil e)) (fun p => rfl) (fun p => rfl) h
    cases r with
    | error e => exact errAllSim_inv _ hbase
    | ok page =>
      have hbase2 : SimInv { s with feed := rest, cursor := some page, pulling := false } :=
        simInv_neutral s _ [] (List.append_nil s.trace).symm
          (fun e he => absurd he (List.not_mem_nil e)) (fun p => rfl) (fun p => rfl) h
      show SimInv (if page.shouldPullAgain = true
        then pullChangesSim (some (mergeAcc prev page))
          { s with feed := rest, cursor := some page, pulling := false }
        else commitChangesSim (mergeAcc prev page)
          { s with feed := rest, cursor := some page, pulling := false })
      by_cases hagain : page.shouldPullAgain = true
      · rw [if_pos hagain]
        exact pullChangesSim_inv _ _ hbase2
      · rw [if_neg hagain]
        exact commitChangesSim_inv _ _ hbase2

theorem firePollReturn_inv (s : SimSt) (h : SimInv s) : SimInv (firePollReturn s) := by
  rw [firePollReturn]
  cases hf : s.polls with
  | nil => exact h
  | cons r rest =>
    have hbase : SimInv { s with polls := rest } :=
      simInv_neutral s _ [] (List.append_nil s.trace).symm
        (fun e he => absurd he (List.not_mem_nil e)) (fun p => rfl) (fun p => rfl) h
    cases r with
    | error e => exact errAllSim_inv _ hbase
    | ok hasChanges =>
      show SimInv (if s.watching = true
        then (if hasChanges = true
          then pullChangesSim none { s with polls := rest, watching := false }
          else { ({ s with polls := rest, watching := false } : SimSt) with
                 pending := s.pending ++ [SimEv.watchRetry] })
        else { s with polls := rest })
      by_cases hw : s.watching = true
      · rw [if_pos hw]
        have hbase2 : SimInv { s with polls := rest, watching := false } :=
          simInv_neutral s _ [] (List.append_nil s.trace).symm
            (fun e he => absurd he (List.not_mem_nil e)) (fun p => rfl) (fun p => rfl) h
        by_cases hc : hasChanges = true
        · rw [if_pos hc]
          exact pullChangesSim_inv _ _ hbase2
        · rw [if_neg hc]
          refine simInv_neutral { s with polls := rest, watching := false } _ []
            (List.append_nil _).symm
            (fun e he => absurd he (List.not_mem_nil e)) (fun p => rfl) ?_ hbase2
          intro p
          rw [cbCount_append, show cbCount [SimEv.watchRetry] p = 0 from rfl, Nat.add_zero]
      · rw [if_neg hw]
        exact hbase

theorem syncSim_inv (s : SimSt) (path : JsStr) (h : SimInv s) :
    SimInv (syncSim s path) := by
  rw [syncSim]
  apply watchForChangesSim_inv
  refine simInv_neutral s _ [] (List.append_nil s.trace).symm
    (fun e he => absurd he (List.not_mem_nil e)) (fun p => rfl) ?_ h
  intro p
  rw [cbCount_append, show cbCount [SimEv.localState (normalizePath path)] p = 0 from rfl,
    Nat.add_zero]

theorem cbCount_consumer_single (p0 q : JsStr) (d : Nat) :
    cbCount [SimEv.consumerCb p0 d] q = if (p0 == q) = true then 1 else 0 := by
  rw [cbCount, List.countP_cons, List.countP_nil, Nat.zero_add]
  rfl

theorem fireQueueWake_inv (p : JsStr) (s : SimSt) (h : SimInv s) :
    SimInv (fireQueueWake p s) := by
  rw [fireQueueWake]
  by_cases hr : s.running p = true
  · rw [if_pos hr]; exact h
  · rw [if_neg hr]
    cases ht : s.tasks p with
    | nil => exact h
    | cons t moreTasks =>
      obtain ⟨o, h1, h2, h3, h4⟩ := h
      have hrp : s.running p = false := by
        cases hx : s.running p
        · rfl
        · exact absurd hx hr
      have hpo : p ∉ o := fun hmem => hr ((h3 p).mp hmem)
      refine ⟨p :: o, ?_, List.nodup_cons.mpr ⟨hpo, h2⟩, ?_, ?_⟩
      · show cbScan [] (s.trace ++ [TraceEv.cbStart p]) = some (p :: o)
        rw [cbScan_append s.trace _ [], h1]
        show (if p ∈ o then none else cbScan (p :: o) []) = some (p :: o)
        rw [if_neg hpo]
        rfl
      · intro q
        show q ∈ p :: o ↔ updFn s.running p true q = true
        simp only [updFn]
        by_cases hq : q = p
        · subst hq
          simp [List.mem_cons]
        · have hif : (if q = p then true else s.running q) = s.running q := if_neg hq
          rw [hif, List.mem_cons]
          constructor
          · rintro (hq2 | hq2)
            · exact absurd hq2 hq
            · exact (h3 q).mp hq2
          · intro hq2
            exact Or.inr ((h3 q).mpr hq2)
      · intro q
        show cbCount (s.pending ++ [SimEv.consumerCb p ((s.delays p).headD 0)]) q =
          if updFn s.running p true q = true then 1 else 0
        rw [cbCount_append, cbCount_consumer_single]
        simp only [updFn]
        by_cases hq : q = p
        · subst hq
          have h4q := h4 q
          rw [hrp] at h4q
          simp only [Bool.false_eq_true, if_false] at h4q
          simp [h4q]
        · have hbq : (p == q) = false := beq_eq_false_iff_ne.mpr (fun hh => hq hh.symm)
          simp [hbq, hq, h4 q]

/-- State shape right after the scheduler removes a pending consumer callback
for `p0` from the pool: `p0`'s worker is in flight, its pending callback is
gone, and everything else is as the invariant demands. -/
def SimInvDrop (s : SimSt) (p0 : JsStr) : Prop :=
  ∃ o, cbScan [] s.trace = some o ∧ o.Nodup ∧
    (∀ p, p ∈ o ↔ s.running p = true) ∧
    s.running p0 = true ∧ cbCount s.pending p0 = 0 ∧
    (∀ q, q ≠ p0 → cbCount s.pending q = if s.running q = true then 1 else 0)

theorem consumerCb_removed (s : SimSt) (i : Nat) (p0 : JsStr) (d : Nat)
    (rest : List SimEv) (hp : pick s.pending i = some (SimEv.consumerCb p0 d, rest))
    (h : SimInv s) : SimInvDrop { s with pending := rest } p0 := by
  obtain ⟨o, h1, h2, h3, h4⟩ := h
  have hcnt := pick_countP (isCbFor p0) s.pending i _ _ hp
  have hred : isCbFor p0 (SimEv.consumerCb p0 d) = true := by
    rw [isCbFor, beq_self_eq_true]
  have hcnt2 : s.pending.countP (isCbFor p0) = rest.countP (isCbFor p0) + 1 := by
    rw [hcnt, hred]
    simp
  have h4p := h4 p0
  rw [cbCount] at h4p
  have hrun : s.running p0 = true := by
    cases hx : s.running p0
    · exfalso
      rw [hx] at h4p
      simp only [Bool.false_eq_true, if_false] at h4p
      omega
    · rfl
  have hzero : rest.countP (isCbFor p0) = 0 := by
    rw [hrun] at h4p
    simp at h4p
    omega
  refine ⟨o, h1, h2, h3, hrun, ?_, ?_⟩
  · show cbCount rest p0 = 0
    rw [cbCount]
    exact hzero
  · intro q hq
    have hcntq := pick_countP (isCbFor q) s.pending i _ _ hp
    have hbq : isCbFor q (SimEv.consumerCb p0 d) = false := by
      rw [isCbFor]
      exact beq_eq_false_iff_ne.mpr (fun hh => hq hh.symm)
    have hcntq2 : s.pending.countP (isCbFor q) = rest.countP (isCbFor q) := by
      rw [hcntq, hbq]
      simp
    show cbCount rest q = if s.running q = true then 1 else 0
    rw [cbCount, ← hcntq2]
    have h4q := h4 q
    rw [cbCount] at h4q
    exact h4q

theorem fireConsumerCb_inv (p0 : JsStr) (d : Nat) (s : SimSt)
    (h : SimInvDrop s p0) : SimInv (fireConsumerCb p0 d s) := by
  obtain ⟨o, h1, h2, h3, hrun, hzero, hothers⟩ := h
  cases d with
  | succ d2 =>
    show SimInv { s with pending := s.pending ++ [SimEv.consumerCb p0 d2] }
    refine ⟨o, h1, h2, h3, ?_⟩
    intro q
    show cbCount (s.pending ++ [SimEv.consumerCb p0 d2]) q =
      if s.running q = true then 1 else 0
    rw [cbCount_append, cbCount_consumer_single]
    by_cases hq : q = p0
    · subst hq
      simp [hzero, hrun]
    · have hbq : (p0 == q) = false := beq_eq_false_iff_ne.mpr (fun hh => hq hh.symm)
      simp [hbq, hothers q hq]
  | zero =>
    have hp0o : p0 ∈ o := (h3 p0).mpr hrun
    have hscan1 : cbScan [] (s.trace ++ [TraceEv.cbEnd p0]) = some (o.erase p0) := by
      rw [cbScan_append s.trace _ [], h1]
      show (if p0 ∈ o then cbScan (o.erase p0) [] else none) = some (o.erase p0)
      rw [if_pos hp0o]
      rfl
    have hmem1 : ∀ q, q ∈ o.erase p0 ↔ updFn s.running p0 false q = true := by
      intro q
      rw [h2.mem_erase_iff]
      simp only [updFn]
      by_cases hq : q = p0
      · subst hq
        simp
      · have hif : (if q = p0 then false else s.running q) = s.running q := if_neg hq
        rw [hif]
        constructor
        · rintro ⟨_, hq2⟩
          exact (h3 q).mp hq2
        · intro hq2
          exact ⟨hq, (h3 q).mpr hq2⟩
    have hcnt1 : ∀ q, cbCount s.pending q =
        if updFn s.running p0 false q = true then 1 else 0 := by
      intro q
      simp only [updFn]
      by_cases hq : q = p0
      · subst hq
        simp [hzero]
      · simp [hq, hothers q hq]
    have hinv1 : SimInv
        { s with trace := s.trace ++ [TraceEv.cbEnd p0],
                 running := updFn s.running p0 false } :=
      ⟨o.erase p0, hscan1, h2.erase p0, hmem1, hcnt1⟩
    show SimInv (if (s.tasks p0).isEmpty = true
      then watchForChangesSim
        { s with trace := s.trace ++ [TraceEv.cbEnd p0],
                 running := updFn s.running p0 false }
      else
        { watched := s.watched, cursor := s.cursor, pulling := s.pulling,
          watching := s.watching, tasks := s.tasks,
          running := updFn s.running p0 false, delays := s.delays,
          feed := s.feed, polls := s.polls,
          pending := s.pending ++ [SimEv.queueWake p0],
          trace := s.trace ++ [TraceEv.cbEnd p0] })
    by_cases htask : (s.tasks p0).isEmpty = true
    · rw [if_pos htask]
      exact watchForChangesSim_inv _ hinv1
    · rw [if_neg htask]
      refine simInv_neutral
        { s with trace := s.trace ++ [TraceEv.cbEnd p0],
                 running := updFn s.running p0 false }
        _ [] (List.append_nil _).symm
        (fun e he => absurd he (List.not_mem_nil e)) (fun p => rfl) ?_ hinv1
      intro p
      rw [cbCount_append, show cbCount [SimEv.queueWake p0] p = 0 from rfl, Nat.add_zero]

theorem simInv_drop_nonCb (s : SimSt) (i : Nat) (e : SimEv) (rest : List SimEv)
    (hp : pick s.pending i = some (e, rest))
    (he : ∀ q : JsStr, isCbFor q e = false)
    (h : SimInv s) : SimInv { s with pending := rest } := by
  obtain ⟨o, h1, h2, h3, h4⟩ := h
  refine ⟨o, h1, h2, h3, ?_⟩
  intro p
  have hcnt := pick_countP (isCbFor p) s.pending i _ _ hp
  have hcnt2 : s.pending.countP (isCbFor p) = rest.countP (isCbFor p) := by
    rw [hcnt, he p]
    simp
  show cbCount rest p = if s.running p = true then 1 else 0
  rw [cbCount, ← hcnt2]
  have h4p := h4 p
  rw [cbCount] at h4p
  exact h4p

theorem simStep_inv (s : SimSt) (i : Nat) (h : SimInv s) : SimInv (simStep s i) := by
  rw [simStep]
  cases hp : pick s.pending i with
  | none => exact h
  | some er =>
    obtain ⟨e, rest⟩ := er
    show SimInv (fireEvent e { s with pending := rest })
    cases e with
    | pullReturn prev =>
      exact firePullReturn_inv prev _ (simInv_drop_nonCb s i _ rest hp (fun q => rfl) h)
    | commitFinish batch =>
      exact commitCallbackSim_inv batch _ (simInv_drop_nonCb s i _ rest hp (fun q => rfl) h)
    | queueWake p =>
      exact fireQueueWake_inv p _ (simInv_drop_nonCb s i _ rest hp (fun q => rfl) h)
    | pollReturn =>
      exact firePollReturn_inv _ (simInv_drop_nonCb s i _ rest hp (fun q => rfl) h)
    | watchRetry =>
      exact watchForChangesSim_inv _ (simInv_drop_nonCb s i _ rest hp (fun q => rfl) h)
    | localState p =>
      exact pathHandlerSim_inv p [] _ (simInv_drop_nonCb s i _ rest hp (fun q => rfl) h)
    | consumerCb p0 d =>
      exact fireConsumerCb_inv p0 d _ (consumerCb_removed s i p0 d rest hp h)

theorem simInit_inv (feed : List (Except Nat Page)) (polls : List (Except Nat Bool))
    (delays : JsStr → List Nat) : SimInv (simInit feed polls delays) := by
  refine ⟨[], rfl, List.nodup_nil, ?_, ?_⟩
  · intro p
    constructor
    · intro hmem
      exact absurd hmem (List.not_mem_nil p)
    · intro hr
      exact Bool.noConfusion hr
  · intro p
    rfl

theorem foldl_syncSim_inv : ∀ (regs : List JsStr) (s : SimSt), SimInv s →
    SimInv (regs.foldl syncSim s) := by
  intro regs
  induction regs with
  | nil => intro s h; exact h
  | cons p regs ih =>
    intro s h
    rw [List.foldl_cons]
    exact ih _ (syncSim_inv s p h)

theorem foldl_simStep_inv : ∀ (sched : List Nat) (s : SimSt), SimInv s →
    SimInv (sched.foldl simStep s) := by
  intro sched
  induction sched with
  | nil => intro s h; exact h
  | cons i sched ih =>
    intro s h
    rw [List.foldl_cons]
    exact ih _ (simStep_inv s i h)

/-- CLAIM C1 as amended. For every feed script, poll script, consumer latency
script, sequence of `sync` registrations, and scheduler interleaving, the
per-path notification queues (async.queue with concurrency 1) serialize the
consumer change callbacks: a second path-scoped batch notification for the
same path queues behind the first, and its change callback never begins
before the prior callback for that path has returned. However — see the
counterexample — the engine's account-wide filesystem mutation for the next
batch is *not* deferred until the prior callback returns: with more than one
watched path it can run while another path's callback is still
outstanding. -/
theorem c1_amended (feed : List (Except Nat Page)) (polls : List (Except Nat Bool))
    (delays : JsStr → List Nat) (regs : List JsStr) (sched : List Nat) :
    cbSerialized (simRun (mkSim feed polls delays regs) sched).trace = true := by
  obtain ⟨o, h1, _, _, _⟩ := foldl_simStep_inv sched _
    (foldl_syncSim_inv regs _ (simInit_inv feed polls delays))
  rw [simRun, mkSim, cbSerialized, h1]
  rfl
